import Mathlib

/-!
# A shallow embedding of the `flo_rope` crate

This file translates the core of the `flo_rope` repository into Lean 4:

* the arena-backed attributed rope (`src/rope/attributed_rope.rs`,
  `src/rope/node.rs`, `src/rope/branch.rs`,
  `src/rope/attributed_rope_iterator.rs`),
* the rope equality of `src/rope/rope_extensions.rs`,
* the pull-based change tracker (`src/stream_rope/pull_rope.rs`),
* the concatenation adaptor (`src/stream_rope/concat_rope.rs`),

and then proves, or refutes by evaluation, the claims made about that code.

Modelling conventions:

* `usize` is modelled as `Nat`.  The Rust code casts `i64` values back to
  `usize` with `as`, which wraps modulo `2 ^ 64`; those casts are modelled
  explicitly by `i64ToUsize`.  `i64` is modelled as `Int` (none of the
  executions considered here approach the `i64` bounds).
* Code paths that end in a hard failure in every build profile (slice index
  out of bounds, `Vec::drain` with an invalid range, an explicit `panic!`
  call, `Option::expect` on `None`) are modelled by returning `none`.
* `debug_assert!` + graceful-fallback paths are modelled with the release
  behaviour (the fallback), as the source comments direct.
* Loops whose termination depends on the data are given explicit fuel;
  running out of fuel also yields `none`.  A `none` therefore always means
  "this execution does not complete normally".
-/

namespace FloRope

/-- Rust `Range<usize>`: a half-open interval of positions. -/
structure RRange where
  start : Nat
  stop  : Nat
deriving DecidableEq, Repr

/-- Rust `Range::len()`: the iterator length of a `Range<usize>`, which is
`end - start` for `start ≤ end` and `0` otherwise (`Nat` subtraction). -/
def RRange.len (r : RRange) : Nat := r.stop - r.start

/-- The wrapping `i64 as usize` cast. -/
def i64ToUsize (i : Int) : Nat := (i.emod (2 ^ 64)).toNat

/-- The `usize as i64` cast (bit reinterpretation). -/
def usizeToI64 (n : Nat) : Int :=
  if n < 2 ^ 63 then (n : Int) else (n : Int) - 2 ^ 64

/-- Type `RopeAction` from `src/api/rope_action.rs`. -/
inductive RopeAction (Cell Attr : Type) where
  | replace (range : RRange) (newCells : List Cell)
  | setAttributes (range : RRange) (attr : Attr)
  | replaceAttributes (range : RRange) (newCells : List Cell) (attr : Attr)
deriving DecidableEq, Repr

/-- Type `RopeNode` from `src/rope/node.rs` (`RopeBranch` from
`src/rope/branch.rs` is inlined as the `branch` constructor, with the same
field order `left`, `right`, `length`, `parent`).  `RopeNodeIndex` is a bare
`Nat`; the `Arc<Attribute>` is modelled by an `Attr` value (sharing is not
observable through the operations considered here). -/
inductive RopeNode (Cell Attr : Type) where
  | empty
  | leaf (parent : Option Nat) (cells : List Cell) (attr : Attr)
  | branch (left right length : Nat) (parent : Option Nat)
deriving DecidableEq, Repr

/-- Method `RopeNode::len`. -/
def RopeNode.nlen {Cell Attr : Type} : RopeNode Cell Attr → Nat
  | .empty => 0
  | .leaf _ cells _ => cells.length
  | .branch _ _ length _ => length

/-- The `parent()` accessor used by `next_leaf_to_the_right`.  (Its body is
not under `src/`; it is the evident field read on each node variant.) -/
def RopeNode.parentIdx {Cell Attr : Type} : RopeNode Cell Attr → Option Nat
  | .empty => none
  | .leaf parent _ _ => parent
  | .branch _ _ _ parent => parent

/-- Structure `AttributedRope` from `src/rope/attributed_rope.rs`: the node arena, the
root index and the free-slot list.  The free list is kept with its top (the
next slot `Vec::pop` would return) at the head. -/
structure ARope (Cell Attr : Type) where
  nodes : List (RopeNode Cell Attr)
  rootNodeIdx : Nat
  freeNodes : List Nat
deriving DecidableEq, Repr

variable {Cell Attr : Type}

/-- Arena lookup `self.nodes[i]`; `none` models the index-out-of-bounds
hard failure. -/
def getNode (r : ARope Cell Attr) (i : Nat) : Option (RopeNode Cell Attr) :=
  r.nodes.get? i

/-- Arena store `self.nodes[i] = n` (every store in the translated flows
follows a successful lookup of the same index). -/
def setNode (r : ARope Cell Attr) (i : Nat) (n : RopeNode Cell Attr) :
    ARope Cell Attr :=
  { r with nodes := r.nodes.set i n }

/-- Constructor `AttributedRope::new()`: one empty leaf with the default attribute. -/
def newRope : ARope Cell Nat := ⟨[.leaf none [] 0], 0, []⟩

/-- Constructor `AttributedRope::from(cells)` (with `Nat` attributes, default `0`). -/
def fromList (cells : List Cell) : ARope Cell Nat :=
  ⟨[.leaf none cells 0], 0, []⟩

/-- Method `AttributedRope::store_new_node`: pop a free slot if available, else
append. -/
def storeNewNode (r : ARope Cell Attr) (n : RopeNode Cell Attr) :
    ARope Cell Attr × Nat :=
  match r.freeNodes with
  | f :: rest => ({ r with nodes := r.nodes.set f n, freeNodes := rest }, f)
  | [] => ({ r with nodes := r.nodes ++ [n] }, r.nodes.length)

/-- Method `Rope::len` for `AttributedRope`: the root node's length.  (The root
index is valid in every state produced by the translated operations.) -/
def lenOp (r : ARope Cell Attr) : Nat :=
  match getNode r r.rootNodeIdx with
  | some n => n.nlen
  | none => 0

/-- Method `AttributedRope::split`: replace a leaf in place by a branch over two
freshly stored leaves.  `none` models the hard failure of
`cells.drain(split_index..cells.len())` when `split_index > cells.len()`. -/
def split (r : ARope Cell Attr) (leafNodeIdx splitIndex : Nat) :
    Option (ARope Cell Attr × Nat) :=
  match getNode r leafNodeIdx with
  | none => none
  | some node =>
    -- `take()` leaves the slot empty
    let r1 := setNode r leafNodeIdx .empty
    match node with
    | .leaf parent cells attr =>
      if cells.length < splitIndex then none
      else
        let rightCells := cells.drop splitIndex
        let leftCells  := cells.take splitIndex
        let length     := leftCells.length + rightCells.length
        let s1 := storeNewNode r1 (.leaf (some leafNodeIdx) leftCells attr)
        let s2 := storeNewNode s1.1 (.leaf (some leafNodeIdx) rightCells attr)
        some (setNode s2.1 leafNodeIdx
          (.branch s1.2 s2.2 length parent), s1.2)
    | other =>
      -- non-leaf: restore the node and return the index unchanged
      some (setNode r1 leafNodeIdx other, leafNodeIdx)

/-- The ascent half of `next_leaf_to_the_right`: climb until the current
node is its parent's left child, then answer the parent's right child.
Result `some none` means "no neighbour to the right". -/
def nextLeafAscend (r : ARope Cell Attr) :
    Nat → Nat → Option Nat → Option (Option Nat)
  | 0, _, _ => none
  | fuel + 1, leftIdx, maybeParent =>
    match maybeParent with
    | none => some none
    | some p =>
      match getNode r p with
      | none => none
      | some (.branch l rt _ pp) =>
        if leftIdx = l then some (some rt)
        else nextLeafAscend r fuel p pp
      | some _ => some none    -- parent was not a branch: walk stops

/-- The descent half of `next_leaf_to_the_right`: follow left children down
to a non-branch node. -/
def descendLeft (r : ARope Cell Attr) : Nat → Nat → Option Nat
  | 0, _ => none
  | fuel + 1, idx =>
    match getNode r idx with
    | none => none
    | some (.branch l _ _ _) => descendLeft r fuel l
    | some _ => some idx

/-- Method `AttributedRope::next_leaf_to_the_right`. -/
def nextLeafToTheRight (r : ARope Cell Attr) (nodeIdx : Nat) :
    Option (Option Nat) :=
  match getNode r nodeIdx with
  | none => none
  | some n =>
    match nextLeafAscend r (r.nodes.length + 1) nodeIdx n.parentIdx with
    | none => none
    | some none => some none
    | some (some rightIdx) =>
      (descendLeft r (r.nodes.length + 1) rightIdx).map some

/-- The descent loop of `AttributedRope::find_leaf`.  At a branch the left
side is taken when `idx - offset ≤ len(left)` (the boundary tie goes left). -/
def findLeafGo (r : ARope Cell Attr) : Nat → Nat → Nat → Nat → Option (Nat × Nat)
  | 0, _, _, _ => none
  | fuel + 1, current, offset, idx =>
    match getNode r current with
    | none => none
    | some (.branch l rt _ _) =>
      match getNode r l with
      | none => none
      | some leftNode =>
        if idx - offset ≤ leftNode.nlen then findLeafGo r fuel l offset idx
        else findLeafGo r fuel rt (offset + leftNode.nlen) idx
    | some _ => some (offset, current)

/-- Method `AttributedRope::find_leaf`. -/
def findLeaf (r : ARope Cell Attr) (idx : Nat) : Option (Nat × Nat) :=
  findLeafGo r (r.nodes.length + 1) r.rootNodeIdx 0 idx

/-- The ancestor-length update loop at the end of
`AttributedRope::replace_cells` (`branch.length = ((branch.length as i64) +
length_diff) as usize`, repeated up the parent chain). -/
def updateBranchLens (lengthDiff : Int) :
    ARope Cell Attr → Nat → Option Nat → Option (ARope Cell Attr)
  | r, _, none => some r
  | _, 0, some _ => none
  | r, fuel + 1, some bidx =>
    match getNode r bidx with
    | none => none
    | some (.branch l rt len p) =>
      updateBranchLens lengthDiff
        (setNode r bidx (.branch l rt (i64ToUsize (usizeToI64 len + lengthDiff)) p))
        fuel p
    | some _ => some r    -- parent was not a branch: loop stops

/-- Method `AttributedRope::replace_cells`: clamp the range to the leaf's cells,
compute `length_diff = (range.len() as i64) - (cells.len() as i64)` exactly
as the source does, splice the new cells in, and update every ancestor
branch length by `length_diff`. -/
def replaceCells (r : ARope Cell Attr) (leafNodeIdx : Nat) (range : RRange)
    (newCells : List Cell) : Option (ARope Cell Attr) :=
  match getNode r leafNodeIdx with
  | none => none
  | some (.leaf parentIdx cells attr) =>
    let rstart := if range.start > cells.length then cells.length else range.start
    let rstop  := if range.stop > cells.length then cells.length else range.stop
    if rstop < rstart then none    -- `Vec::splice` with start > end: hard failure
    else
      let lengthDiff : Int := (RRange.len ⟨rstart, rstop⟩ : Int) - (cells.length : Int)
      let cells2 := cells.take rstart ++ newCells ++ cells.drop rstop
      let r1 := setNode r leafNodeIdx (.leaf parentIdx cells2 attr)
      updateBranchLens lengthDiff r1 (r1.nodes.length + 1) parentIdx
  | some _ => some r    -- not a leaf: fall through without changes

/-- Method `AttributedRope::insert_blank_node`: wedge a zero-length leaf into an
existing leaf at `split_index`.  `none` models the `panic!` on a non-leaf
slot and the `.expect` on a missing right-hand sibling. -/
def insertBlankNode (r : ARope Cell Attr) (leafNodeIdx splitIndex : Nat) :
    Option (ARope Cell Attr × Nat) :=
  if splitIndex = 0 then split r leafNodeIdx 0
  else
    match getNode r leafNodeIdx with
    | some (.leaf _ cells _) =>
      if splitIndex ≥ cells.length then
        match split r leafNodeIdx splitIndex with
        | none => none
        | some (r1, lhsIdx) =>
          match nextLeafToTheRight r1 lhsIdx with
          | some (some rhsIdx) => some (r1, rhsIdx)
          | _ => none
      else
        match split r leafNodeIdx splitIndex with
        | none => none
        | some (r1, lhsIdx) =>
          match nextLeafToTheRight r1 lhsIdx with
          | some (some rhsIdx) => split r1 rhsIdx 0
          | _ => none
    | some _ => none
    | none => none

/-- The tail of `AttributedRope::join_to_right` after the grandparent has
been repointed: give the surviving node its new parent, free the collapsed
leaf and branch slots, and prepend any leftover cells to the right-hand
leaf. -/
def joinFinish (r : ARope Cell Attr) (leafNodeIdx parentNodeIdx remainingIdx : Nat)
    (grandparent : Option Nat) (rightNodeIdx : Nat) (lhsCells : List Cell) :
    Option (ARope Cell Attr) :=
  match getNode r remainingIdx with
  | some (.leaf _ cs a) =>
    joinCells (setNode r remainingIdx (.leaf grandparent cs a))
      leafNodeIdx parentNodeIdx rightNodeIdx lhsCells
  | some (.branch l rt len _) =>
    joinCells (setNode r remainingIdx (.branch l rt len grandparent))
      leafNodeIdx parentNodeIdx rightNodeIdx lhsCells
  | some .empty => none    -- `panic!`: unexpected empty node
  | none => none
where
  /-- push the two freed slots (parent is popped first) and splice the
  leftover cells onto the right neighbour -/
  joinCells (r : ARope Cell Attr) (leafNodeIdx parentNodeIdx rightNodeIdx : Nat)
      (lhsCells : List Cell) : Option (ARope Cell Attr) :=
    let r1 : ARope Cell Attr :=
      { r with freeNodes := parentNodeIdx :: leafNodeIdx :: r.freeNodes }
    if lhsCells.isEmpty then some r1
    else
      match getNode r1 rightNodeIdx with
      | some (.leaf p rcs a) =>
        some (setNode r1 rightNodeIdx (.leaf p (lhsCells ++ rcs) a))
      | some _ => none    -- `panic!`: RHS of a join was not a leaf
      | none => none

/-- Method `AttributedRope::join_to_right`: collapse a (typically empty) leaf into
its right-hand neighbour, removing its parent branch. -/
def joinToRight (r : ARope Cell Attr) (leafNodeIdx : Nat) :
    Option (ARope Cell Attr) :=
  match nextLeafToTheRight r leafNodeIdx with
  | none => none
  | some none => some r    -- no node to the right: do nothing
  | some (some rightNodeIdx) =>
    match getNode r leafNodeIdx with
    | none => none
    | some node =>
      let r1 := setNode r leafNodeIdx .empty    -- `take()`
      match node with
      | .leaf parentOpt lhsCells _ =>
        match parentOpt with
        | none => some r1    -- early return (the slot stays empty)
        | some parentNodeIdx =>
          match getNode r1 parentNodeIdx with
          | none => none
          | some parentNode =>
            let r2 := setNode r1 parentNodeIdx .empty    -- `take()`
            match parentNode with
            | .branch l rt _ gp =>
              let remainingIdx := if l = leafNodeIdx then rt else l
              match gp with
              | some gpi =>
                match getNode r2 gpi with
                | some (.branch gl gr glen gpp) =>
                  let r3 :=
                    if gl = parentNodeIdx
                    then setNode r2 gpi (.branch remainingIdx gr glen gpp)
                    else setNode r2 gpi (.branch gl remainingIdx glen gpp)
                  joinFinish r3 leafNodeIdx parentNodeIdx remainingIdx gp
                    rightNodeIdx lhsCells
                | some _ => none    -- `panic!`: grandparent not a branch
                | none => none
              | none =>
                let r3 : ARope Cell Attr := { r2 with rootNodeIdx := remainingIdx }
                joinFinish r3 leafNodeIdx parentNodeIdx remainingIdx none
                  rightNodeIdx lhsCells
            | _ => none    -- `panic!`: parent not a branch
      | other => some (setNode r1 leafNodeIdx other)    -- non-leaf: restore

/-- The rightward removal loop inside `AttributedRope::replace_leaf`:
delete up to `remaining` cells from successive leaves to the right,
recording the leaves this empties. -/
def removeRightLoop (r : ARope Cell Attr) :
    Nat → Nat → Nat → List Nat → Option (ARope Cell Attr × List Nat)
  | 0, _, _, _ => none
  | fuel + 1, remaining, lastNodeIdx, empties =>
    if remaining = 0 then some (r, empties)
    else
      match nextLeafToTheRight r lastNodeIdx with
      | none => none
      | some none => some (r, empties)    -- no node to the right: stop
      | some (some nextNodeIdx) =>
        match getNode r nextNodeIdx with
        | none => none
        | some nextNode =>
          let toRemove := min remaining nextNode.nlen
          match replaceCells r nextNodeIdx ⟨0, toRemove⟩ [] with
          | none => none
          | some r1 =>
            let empties1 :=
              if (getNode r1 nextNodeIdx).map RopeNode.nlen = some 0
              then empties ++ [nextNodeIdx] else empties
            removeRightLoop r1 fuel (remaining - toRemove) nextNodeIdx empties1

/-- Running `join_to_right` over each recorded empty leaf, in order. -/
def joinEmpties (r : ARope Cell Attr) : List Nat → Option (ARope Cell Attr)
  | [] => some r
  | i :: rest =>
    match joinToRight r i with
    | none => none
    | some r1 => joinEmpties r1 rest

/-- Method `AttributedRope::replace_leaf`: splice into the target leaf, then (when
the source's overrun test `leaf_pos + absolute_range.len() > leaf_end`
fires) delete the remainder of the range from the leaves to the right and
join any leaves this emptied; finally join the target itself if it ended up
empty. -/
def replaceLeaf (r : ARope Cell Attr) (absoluteRange : RRange)
    (leafOffset leafNodeIdx : Nat) (newCells : List Cell) :
    Option (ARope Cell Attr) :=
  match getNode r leafNodeIdx with
  | none => none
  | some n0 =>
    let leafLen := n0.nlen
    let leafPos := absoluteRange.start - leafOffset
    let leafEnd := leafOffset + leafLen
    match replaceCells r leafNodeIdx
        ⟨absoluteRange.start - leafOffset, absoluteRange.stop - leafOffset⟩
        newCells with
    | none => none
    | some r1 =>
      let afterOverrun : Option (ARope Cell Attr) :=
        if leafPos + absoluteRange.len > leafEnd then
          let remainingToRight := absoluteRange.len - (leafLen - leafPos)
          match removeRightLoop r1 (r1.nodes.length + 1) remainingToRight
              leafNodeIdx [] with
          | none => none
          | some (r2, empties) => joinEmpties r2 empties
        else some r1
      match afterOverrun with
      | none => none
      | some r3 =>
        match getNode r3 leafNodeIdx with
        | none => none
        | some n1 =>
          if n1.nlen = 0 then joinToRight r3 leafNodeIdx else some r3

/-- Constant `SPLIT_LENGTH` from `src/rope/attributed_rope.rs`. -/
def SPLIT_LEN : Nat := 32

/-- Method `RopeMut::replace` for `AttributedRope`: find the leaf for the range
start, split it when more than `SPLIT_LENGTH` cells of it lie after the
insertion point, and delegate to `replace_leaf`.  The split guard computes
`self.nodes[leaf].len() - position_in_leaf` on `usize`; when the position
lies past the leaf's end that computation is a hard failure in a debug
build, and the release build reaches an invalid `split` that fails at
`drain` — both are modelled by `none`. -/
def replaceOp (r : ARope Cell Attr) (range : RRange) (newCells : List Cell) :
    Option (ARope Cell Attr) :=
  match findLeaf r range.start with
  | none => none
  | some (leafOffset, leafNode) =>
    match getNode r leafNode with
    | none => none
    | some n =>
      let positionInLeaf := range.start - leafOffset
      if n.nlen < positionInLeaf then none
      else if n.nlen - positionInLeaf > SPLIT_LEN then
        match split r leafNode positionInLeaf with
        | none => none
        | some (r1, _) =>
          match findLeaf r1 range.start with
          | none => none
          | some (newLeafOffset, newLeafNode) =>
            replaceLeaf r1 range newLeafOffset newLeafNode newCells
      else replaceLeaf r range leafOffset leafNode newCells

section DecAttr
variable [DecidableEq Attr]

/-- The `while remaining_range.start < remaining_range.end` loop of
`RopeMut::set_attributes` for `AttributedRope`, with explicit fuel.  The
five arms match the source in order: equal attributes (skip right), range
start at or past the leaf end (move right), range start mid-leaf (split at
the start), range end at or before the leaf end (split at the end and
continue with the left half), and otherwise overwrite the whole leaf's
attribute and move right. -/
def setAttributesGo (newAttr : Attr) (remStop : Nat) :
    Nat → ARope Cell Attr → Nat → Nat → Nat → Option (ARope Cell Attr)
  | 0, _, _, _, _ => none
  | fuel + 1, r, remStart, leafOffset, leafNodeIdx =>
    if remStart < remStop then
      match getNode r leafNodeIdx with
      | none => none
      | some leafNode =>
        let leafLen := leafNode.nlen
        match leafNode with
        | .leaf _ _ leafAttr =>
          if leafAttr = newAttr then
            match nextLeafToTheRight r leafNodeIdx with
            | none => none
            | some none => some r
            | some (some nxt) =>
              setAttributesGo newAttr remStop fuel r (remStart + leafLen)
                (leafOffset + leafLen) nxt
          else if remStart ≥ leafOffset + leafLen then
            match nextLeafToTheRight r leafNodeIdx with
            | none => none
            | some none => some r
            | some (some nxt) =>
              setAttributesGo newAttr remStop fuel r remStart
                (leafOffset + leafLen) nxt
          else if remStart ≠ leafOffset then
            let splitPos := remStart - leafOffset
            match split r leafNodeIdx splitPos with
            | none => none
            | some (r1, li) =>
              match nextLeafToTheRight r1 li with
              | none => none
              | some none => some r1
              | some (some nxt) =>
                setAttributesGo newAttr remStop fuel r1 remStart
                  (leafOffset + splitPos) nxt
          else if remStop ≤ leafOffset + leafLen then
            let splitPos := remStop - leafOffset
            match split r leafNodeIdx splitPos with
            | none => none
            | some (r1, li) =>
              setAttributesGo newAttr remStop fuel r1 remStart leafOffset li
          else
            let r1 :=
              match getNode r leafNodeIdx with
              | some (.leaf p cs _) => setNode r leafNodeIdx (.leaf p cs newAttr)
              | _ => r
            match nextLeafToTheRight r1 leafNodeIdx with
            | none => none
            | some none => some r1
            | some (some nxt) =>
              setAttributesGo newAttr remStop fuel r1 (remStart + leafLen)
                (leafOffset + leafLen) nxt
        | _ => some r    -- not a leaf: break
    else some r

/-- Method `RopeMut::set_attributes` for `AttributedRope`: clamp the range to
`[0, len]`, find the starting leaf, and run the walk. -/
def setAttributesOp (r : ARope Cell Attr) (range : RRange) (newAttr : Attr)
    (fuel : Nat) : Option (ARope Cell Attr) :=
  let len := lenOp r
  let remStart := if range.start > len then len else range.start
  let remStop  := if range.stop > len then len else range.stop
  match findLeaf r remStart with
  | none => none
  | some (leafOffset, leafNodeIdx) =>
    setAttributesGo newAttr remStop fuel r remStart leafOffset leafNodeIdx

/-- Method `RopeMut::replace_attributes` for `AttributedRope`: the three cases of
the source (same attributes; leaf fully covered from its start; otherwise
insert a blank node, retag it and `replace_leaf` into it). -/
def replaceAttributesOp (r : ARope Cell Attr) (range : RRange)
    (newCells : List Cell) (newAttr : Attr) : Option (ARope Cell Attr) :=
  match findLeaf r range.start with
  | none => none
  | some (leafOffset, leafNodeIdx) =>
    match getNode r leafNodeIdx with
    | some (.leaf _ cells leafAttr) =>
      if leafAttr = newAttr then replaceOp r range newCells
      else if leafOffset = range.start ∧ cells.length < range.len then
        let r1 :=
          match getNode r leafNodeIdx with
          | some (.leaf p cs _) => setNode r leafNodeIdx (.leaf p cs newAttr)
          | _ => r
        replaceOp r1 range newCells
      else
        match insertBlankNode r leafNodeIdx (range.start - leafOffset) with
        | none => none
        | some (r1, emptyNodeIdx) =>
          let r2 :=
            match getNode r1 emptyNodeIdx with
            | some (.leaf p cs _) => setNode r1 emptyNodeIdx (.leaf p cs newAttr)
            | _ => r1
          replaceLeaf r2 range range.start emptyNodeIdx newCells
    | some _ => some r    -- failed to find a leaf: return
    | none => none

end DecAttr

/-- The stepping of `AttributedRopeIterator` (from
`src/rope/attributed_rope_iterator.rs`), materialised into a list: emit the
current cell and advance, hopping to the next leaf to the right when the
current one is exhausted, until `remaining` cells were produced or the rope
ran out. -/
def readCellsGo (r : ARope Cell Attr) :
    Nat → Nat → Nat → Nat → Option (List Cell)
  | 0, _, _, _ => none
  | fuel + 1, nodeIdx, nodeOffset, remaining =>
    if remaining = 0 then some []
    else
      match getNode r nodeIdx with
      | none => none
      | some (.leaf _ cells _) =>
        if h : nodeOffset < cells.length then
          match readCellsGo r fuel nodeIdx (nodeOffset + 1) (remaining - 1) with
          | none => none
          | some rest => some (cells.get ⟨nodeOffset, h⟩ :: rest)
        else
          match nextLeafToTheRight r nodeIdx with
          | none => none
          | some none => some []    -- overran the end of the rope
          | some (some nxt) => readCellsGo r fuel nxt 0 remaining
      | some _ => some []    -- not a leaf: the iterator yields `None`

/-- Method `AttributedRope::read_cells(range)`, collected into a list. -/
def readCellsOp (r : ARope Cell Attr) (range : RRange) : Option (List Cell) :=
  match findLeaf r range.start with
  | none => none
  | some (nodeOffset, nodeIdx) =>
    readCellsGo r (range.len + r.nodes.length + 1) nodeIdx
      (range.start - nodeOffset) range.len

section DecAttr2
variable [DecidableEq Attr]

/-- The rightward-extension loop of `Rope::read_attributes` for
`AttributedRope`: grow the extent across neighbours with an equal
attribute. -/
def readAttrExtend (r : ARope Cell Attr) (attr : Attr) :
    Nat → Nat → Nat → Option Nat
  | 0, _, _ => none
  | fuel + 1, lastNodeIdx, extentStop =>
    match nextLeafToTheRight r lastNodeIdx with
    | none => none
    | some none => some extentStop
    | some (some nxt) =>
      match getNode r nxt with
      | none => none
      | some (.leaf _ cells a2) =>
        if a2 = attr then readAttrExtend r attr fuel nxt (extentStop + cells.length)
        else some extentStop
      | some _ => some extentStop    -- neighbour was not a leaf: break

/-- Method `Rope::read_attributes` for `AttributedRope`: the found leaf's
attribute together with its extent, extended to the right while the
attribute is equal.  `none` models the `panic!` when `find_leaf` does not
land on a leaf. -/
def readAttributesOp (r : ARope Cell Attr) (pos : Nat) :
    Option (Attr × RRange) :=
  match findLeaf r pos with
  | none => none
  | some (leafOffset, leafNodeIdx) =>
    match getNode r leafNodeIdx with
    | some (.leaf _ cells attr) =>
      match readAttrExtend r attr (r.nodes.length + 1) leafNodeIdx
          (leafOffset + cells.length) with
      | none => none
      | some e => some (attr, ⟨leafOffset, e⟩)
    | some _ => none
    | none => none

/-- Method `RopeMut::edit` for `AttributedRope`: dispatch on the action.  The fuel
is threaded to `set_attributes` only. -/
def editRope (r : ARope Cell Attr) (a : RopeAction Cell Attr) (fuel : Nat) :
    Option (ARope Cell Attr) :=
  match a with
  | .replace range newCells => replaceOp r range newCells
  | .setAttributes range attr => setAttributesOp r range attr fuel
  | .replaceAttributes range newCells attr =>
    replaceAttributesOp r range newCells attr

end DecAttr2

/-- The cell comparison of `PartialEq for AttributedRope`: a
`while let (Some(a), Some(b))` walk that stops at the shorter list. -/
def cellsEqualZip [DecidableEq Cell] : List Cell → List Cell → Bool
  | a :: as', b :: bs' => if a = b then cellsEqualZip as' bs' else false
  | _, _ => true

section DecEq
variable [DecidableEq Cell] [DecidableEq Attr]

/-- The attribute-walk loop of `PartialEq for AttributedRope`
(`src/rope/rope_extensions.rs`).  Every `read_attributes` call in the loop
is `self.read_attributes(..)` in the source — including the reads that
refresh the `b` cursor — so the walk below reads only `ra`, exactly as the
code does. -/
def eqAttrLoop (ra : ARope Cell Attr) (len : Nat) :
    Nat → (Attr × RRange) → (Attr × RRange) → Option Bool
  | 0, _, _ => none
  | fuel + 1, (attrA, rangeA), (attrB, rangeB) =>
    let stepA : Option (Attr × RRange) :=
      if rangeB.start ≥ rangeA.stop ∨ rangeA.start = rangeA.stop then
        readAttributesOp ra rangeB.start
      else some (attrA, rangeA)
    match stepA with
    | none => none
    | some (attrA, rangeA) =>
      let stepB : Option (Attr × RRange) :=
        if rangeA.start ≥ rangeB.stop ∨ rangeB.start = rangeB.stop then
          readAttributesOp ra rangeA.start
        else some (attrB, rangeB)
      match stepB with
      | none => none
      | some (attrB, rangeB) =>
        if attrA ≠ attrB then some false
        else if rangeA.stop ≥ len ∧ rangeB.stop ≥ len then some true
        else if rangeA.stop ≤ rangeB.stop then
          match readAttributesOp ra rangeA.stop with
          | none => none
          | some pA => eqAttrLoop ra len fuel pA (attrB, rangeB)
        else
          match readAttributesOp ra rangeB.stop with
          | none => none
          | some pB => eqAttrLoop ra len fuel (attrA, rangeA) pB

/-- Method `PartialEq::eq` for `AttributedRope`: compare lengths, then cells
pointwise, then run the attribute walk.  The walk is an unbounded `loop` in
the source, so it takes its iteration fuel as a parameter here: a result of
`none` at every fuel means the comparison never returns. -/
def ropeEq (ra rb : ARope Cell Attr) (fuel : Nat) : Option Bool :=
  if lenOp ra ≠ lenOp rb then some false
  else
    match readCellsOp ra ⟨0, lenOp ra⟩, readCellsOp rb ⟨0, lenOp rb⟩ with
    | some csa, some csb =>
      if cellsEqualZip csa csb = false then some false
      else
        let len := lenOp ra
        match readAttributesOp ra 0, readAttributesOp ra 0 with
        | some pa, some pb => eqAttrLoop ra len fuel pa pb
        | _, _ => none
    | _, _ => none

end DecEq

/-- The sum of the cell counts of the leaves reachable from node `idx`
(the measuring stick for the tree-shape invariant: it must agree with the
stored branch lengths and with `len()`). -/
def subtreeCells (r : ARope Cell Attr) : Nat → Nat → Option Nat
  | 0, _ => none
  | fuel + 1, idx =>
    match getNode r idx with
    | none => none
    | some .empty => some 0
    | some (.leaf _ cells _) => some cells.length
    | some (.branch l rt _ _) =>
      match subtreeCells r fuel l, subtreeCells r fuel rt with
      | some a, some b => some (a + b)
      | _, _ => none

/-- The sum of the cell counts of all leaves reachable from the root. -/
def totalLeafCells (r : ARope Cell Attr) : Option Nat :=
  subtreeCells r (r.nodes.length + 1) r.rootNodeIdx

/-! ## The pull-based change tracker (`src/stream_rope/pull_rope.rs`) -/

/-- Structure `RopePendingChange`: a region edited since the last pull. -/
structure RopePendingChange where
  originalRange : RRange
  newRange : RRange
  changedAttributes : Bool
deriving DecidableEq, Repr

/-- The scan loop of `PullRope::find_change`. -/
def findChangeGo (pos : Nat) :
    List RopePendingChange → Nat → Int → Nat × Int
  | [], i, diff => (i, diff)
  | c :: rest, i, diff =>
    if c.newRange.start ≤ pos ∧ pos < c.newRange.stop then (i, diff)
    else if pos < c.newRange.start then (i, diff)
    else
      findChangeGo pos rest (i + 1)
        (diff + (usizeToI64 c.originalRange.len - usizeToI64 c.newRange.len))

/-- Method `PullRope::find_change`: the index of the change containing `pos` (or
of the first change past it), plus the accumulated length difference of the
changes before it. -/
def findChange (changes : List RopePendingChange) (pos : Nat) : Nat × Int :=
  findChangeGo pos changes 0 0

/-- The "shift all following changes" loops of `mark_change` that go
through `i64` casts: every change from `idx` on has `delta` subtracted from
both ends of its `new_range` via `(x as i64 - delta) as usize`. -/
def shiftNewRanges (changes : List RopePendingChange) (idx : Nat)
    (delta : Int) : List RopePendingChange :=
  changes.take idx ++ (changes.drop idx).map fun c =>
    { c with newRange :=
        ⟨i64ToUsize (usizeToI64 c.newRange.start - delta),
         i64ToUsize (usizeToI64 c.newRange.stop - delta)⟩ }

/-- The plain-`usize` shift loop of `mark_change`'s shrink-the-gap case
(`new_range.start - length_diff` without a cast); `none` models the debug
hard failure on underflow. -/
def shiftNewRangesUsize (changes : List RopePendingChange) (idx : Nat)
    (delta : Nat) : Option (List RopePendingChange) :=
  match (changes.drop idx).mapM (fun c =>
      if c.newRange.start < delta ∨ c.newRange.stop < delta then none
      else some { c with newRange :=
        ⟨c.newRange.start - delta, c.newRange.stop - delta⟩ }) with
  | none => none
  | some shifted => some (changes.take idx ++ shifted)

/-- The main loop of `PullRope::mark_change`, translated case by case.  The
loop state is the change list, the current index, the running `diff`, the
remaining range (in current coordinates) and the remaining new length. -/
def markChangeGo (attributeChange : Bool) :
    Nat → List RopePendingChange → Nat → Int → RRange → Nat →
    Option (List RopePendingChange)
  | 0, _, _, _, _, _ => none
  | fuel + 1, changes, changeIdx, diff, remRange, remLength =>
    if changeIdx ≥ changes.length then
      -- past the end of the change list: push and stop
      let originalStart := i64ToUsize (usizeToI64 remRange.start + diff)
      let originalStop  := i64ToUsize (usizeToI64 remRange.stop + diff)
      some (changes ++ [⟨⟨originalStart, originalStop⟩,
        ⟨remRange.start, remRange.start + remLength⟩, attributeChange⟩])
    else
      match changes.get? changeIdx with
      | none => none
      | some c0 =>
        if c0.newRange.start ≤ remRange.start then
          -- overlap with an existing range
          let c := { c0 with changedAttributes := c0.changedAttributes || attributeChange }
          let changes := changes.set changeIdx c
          let newEnd := remRange.start + remLength
          if newEnd < c.newRange.stop then
            -- the new change is entirely within the existing change
            let maxDiff : Int := usizeToI64 c.newRange.len
            let lengthDiff : Int := usizeToI64 remRange.len - usizeToI64 remLength
            let lengthChange := min maxDiff lengthDiff
            let changes :=
              if lengthDiff ≠ 0 then
                shiftNewRanges
                  (changes.set changeIdx { c with newRange :=
                    ⟨c.newRange.start,
                     i64ToUsize (usizeToI64 c.newRange.stop - lengthChange)⟩ })
                  (changeIdx + 1) lengthChange
              else changes
            if lengthChange = lengthDiff then some changes
            else
              -- the change was too short to absorb the whole shrink
              match changes.get? changeIdx with
              | none => none
              | some c2 =>
                if remRange.stop < i64ToUsize lengthChange then none
                else
                  markChangeGo attributeChange fuel changes (changeIdx + 1)
                    (diff + (usizeToI64 c2.originalRange.len -
                      usizeToI64 c2.newRange.len))
                    ⟨remRange.start, remRange.stop - i64ToUsize lengthChange⟩
                    remLength
          else
            -- consume the overlap and continue with the following range
            if c.newRange.stop < remRange.start ∨
                remLength < c.newRange.stop - remRange.start then none
            else
              let usedLength := c.newRange.stop - remRange.start
              markChangeGo attributeChange fuel changes (changeIdx + 1)
                (diff + (usizeToI64 c.originalRange.len -
                  usizeToI64 c.newRange.len))
                ⟨remRange.start + usedLength, remRange.stop⟩
                (remLength - usedLength)
        else
          -- the edit starts in the gap before changes[changeIdx]
          let nextRangeStart := c0.newRange.start
          if nextRangeStart ≥ remRange.stop then
            -- the whole remaining edit fits in the gap: insert and stop
            let originalStart := i64ToUsize (usizeToI64 remRange.start + diff)
            let originalStop  := i64ToUsize (usizeToI64 remRange.stop + diff)
            let changes := changes.insertIdx changeIdx
              ⟨⟨originalStart, originalStop⟩,
               ⟨remRange.start, remRange.start + remLength⟩, false⟩
            let lengthDiff : Int := usizeToI64 remRange.len - usizeToI64 remLength
            some (if lengthDiff ≠ 0 then
              shiftNewRanges changes (changeIdx + 1) lengthDiff else changes)
          else
            let gapLength := nextRangeStart - remRange.start
            let originalStart := i64ToUsize (usizeToI64 remRange.start + diff)
            let gapEnd := originalStart + gapLength
            if gapLength ≤ remLength then
              -- the edit covers the whole gap: fill it and continue
              let changes := changes.insertIdx changeIdx
                ⟨⟨originalStart, gapEnd⟩,
                 ⟨remRange.start, remRange.start + gapLength⟩, attributeChange⟩
              markChangeGo attributeChange fuel changes (changeIdx + 1) diff
                ⟨remRange.start + gapLength, remRange.stop⟩
                (remLength - gapLength)
            else
              -- the edit shrinks the gap
              let changes := changes.insertIdx changeIdx
                ⟨⟨originalStart, gapEnd⟩,
                 ⟨remRange.start, remRange.start + remLength⟩, attributeChange⟩
              match shiftNewRangesUsize changes (changeIdx + 1)
                  (gapLength - remLength) with
              | none => none
              | some changes =>
                if remRange.stop < gapLength - remLength then none
                else
                  match changes.get? changeIdx with
                  | none => none
                  | some cIns =>
                    markChangeGo attributeChange fuel changes (changeIdx + 1)
                      (diff + (usizeToI64 cIns.originalRange.len -
                        usizeToI64 cIns.newRange.len))
                      ⟨remRange.start + remLength,
                       remRange.stop - (gapLength - remLength)⟩ 0

/-- Method `PullRope::mark_change`.  The fuel is an upper bound on the loop's
iterations for every execution that terminates in the source. -/
def markChange (changes : List RopePendingChange) (originalRange : RRange)
    (newLength : Nat) (attributeChange : Bool) :
    Option (List RopePendingChange) :=
  let fc := findChange changes originalRange.start
  markChangeGo attributeChange
    (2 * changes.length + newLength + originalRange.len + 8)
    changes fc.1 fc.2 originalRange newLength

/-- The state of a `PullRope`: the underlying rope plus the pending-change
list.  (The notification closure is modelled by the `Bool` that the edit
operations return.) -/
structure PullState (Cell Attr : Type) where
  rope : ARope Cell Attr
  changes : List RopePendingChange
deriving DecidableEq, Repr

/-- The filter of `pull_changes`: keep a change unless both of its ranges
are empty. -/
def keepChange (c : RopePendingChange) : Bool :=
  decide (0 < c.originalRange.len) || decide (0 < c.newRange.len)

section Pull
variable [DecidableEq Attr]

/-- The backwards attribute-run loop of `pull_changes` for an
attribute-dirty change: read the attribute at `end_pos - 1`, clip its
extent to the change's `new_range`, emit a `ReplaceAttributes` for the
clipped slice, and continue leftward (the emissions after the first use an
empty `original_range`). -/
def changeActionsAttr (rope : ARope Cell Attr) (newRangeStart : Nat) :
    Nat → RRange → Nat → Option (List (RopeAction Cell Attr))
  | 0, _, _ => none
  | fuel + 1, originalRange, endPos =>
    match readAttributesOp rope (endPos - 1) with
    | none => none
    | some (attr, attrRange) =>
      let startPos := max newRangeStart attrRange.start
      match readCellsOp rope ⟨startPos, endPos⟩ with
      | none => none
      | some newCells =>
        let act := RopeAction.replaceAttributes originalRange newCells attr
        if startPos ≤ newRangeStart then some [act]
        else
          match changeActionsAttr rope newRangeStart fuel
              ⟨originalRange.start, originalRange.start⟩ startPos with
          | none => none
          | some rest => some (act :: rest)

/-- The actions `pull_changes` emits for one pending change. -/
def changeActions (rope : ARope Cell Attr) (c : RopePendingChange) :
    Option (List (RopeAction Cell Attr)) :=
  if c.changedAttributes && decide (0 < c.newRange.len) then
    changeActionsAttr rope c.newRange.start (c.newRange.stop + 1)
      c.originalRange c.newRange.stop
  else
    match readCellsOp rope c.newRange with
    | none => none
    | some cs => some [RopeAction.replace c.originalRange cs]

/-- Method `PullRope::pull_changes`: swap the pending list out (the state that is
returned has no pending changes), then materialise the taken list in
reverse order, skipping changes whose two ranges are both empty. -/
def pullChanges (s : PullState Cell Attr) :
    Option (List (RopeAction Cell Attr)) × PullState Cell Attr :=
  let pending := s.changes
  (((pending.reverse.filter keepChange).mapM (changeActions s.rope)).map
      List.flatten,
   { s with changes := [] })

/-- Method `RopeMut::edit` for `PullRope`: record the change with `mark_change`
(keyed by the action kind), forward the action to the base rope, and report
whether the notification callback fires (it does exactly when the list was
empty before and is non-empty after).  The specialised `replace`,
`set_attributes` and `replace_attributes` methods of `PullRope` perform the
same three steps for their respective action. -/
def pullEdit (s : PullState Cell Attr) (a : RopeAction Cell Attr)
    (fuel : Nat) : Option (PullState Cell Attr × Bool) :=
  let needPull : Bool := s.changes.length = 0
  let marked :=
    match a with
    | .replace range newValues =>
      markChange s.changes range newValues.length false
    | .setAttributes range _ => markChange s.changes range range.len true
    | .replaceAttributes range newValues _ =>
      markChange s.changes range newValues.length true
  match marked with
  | none => none
  | some marked =>
    match editRope s.rope a fuel with
    | none => none
    | some rope1 =>
      some (⟨rope1, marked⟩, needPull && decide (0 < marked.length))

end Pull

/-! ## The concatenation adaptor (`src/stream_rope/concat_rope.rs`) -/

/-- The range of a `RopeAction`. -/
def actionRange : RopeAction Cell Attr → RRange
  | .replace range _ => range
  | .setAttributes range _ => range
  | .replaceAttributes range _ _ => range

/-- The "new length" of a `RopeAction` as `send_left` computes it: the cell
count for `Replace`/`ReplaceAttributes` and the range length for
`SetAttributes`. -/
def actionNewLen : RopeAction Cell Attr → Nat
  | .replace _ cells => cells.length
  | .setAttributes range _ => range.len
  | .replaceAttributes _ cells _ => cells.length

/-- Replace the range of a `RopeAction`, keeping its payload. -/
def withRange (a : RopeAction Cell Attr) (range : RRange) :
    RopeAction Cell Attr :=
  match a with
  | .replace _ cells => .replace range cells
  | .setAttributes _ attr => .setAttributes range attr
  | .replaceAttributes _ cells attr => .replaceAttributes range cells attr

/-- The per-item body of `RopeConcatenator::send_left`: pass the action
through unchanged and move `left_len` by the action's length change.  The
shrink branch subtracts `range.len() - new_len` from `left_len` on `usize`;
`none` models the debug hard failure when that would underflow (the source
carries a `debug_assert!` for exactly this). -/
def sendLeftOne (leftLen : Nat) (item : RopeAction Cell Attr) :
    Option (Nat × RopeAction Cell Attr) :=
  let range := actionRange item
  let newLen := actionNewLen item
  if newLen > range.len then some (leftLen + (newLen - range.len), item)
  else if newLen < range.len then
    if range.len - newLen ≤ leftLen then
      some (leftLen - (range.len - newLen), item)
    else none
  else some (leftLen, item)

/-- The per-item body of `RopeConcatenator::send_right`: add the captured
`left_len` to both endpoints of the action's range. -/
def sendRightOne (leftLen : Nat) (item : RopeAction Cell Attr) :
    RopeAction Cell Attr :=
  match item with
  | .replace range cells =>
    .replace ⟨range.start + leftLen, range.stop + leftLen⟩ cells
  | .setAttributes range attr =>
    .setAttributes ⟨range.start + leftLen, range.stop + leftLen⟩ attr
  | .replaceAttributes range cells attr =>
    .replaceAttributes ⟨range.start + leftLen, range.stop + leftLen⟩ cells attr

/-- Method `RopeConcatenator::send_left` over a whole iterator of actions,
returning the updated `left_len` together with the emitted actions. -/
def sendLeft (leftLen : Nat) :
    List (RopeAction Cell Attr) → Option (Nat × List (RopeAction Cell Attr))
  | [] => some (leftLen, [])
  | a :: rest =>
    match sendLeftOne leftLen a with
    | none => none
    | some (l1, a1) =>
      match sendLeft l1 rest with
      | none => none
      | some (l2, as2) => some (l2, a1 :: as2)

/-- Method `RopeConcatenator::send_right` over a whole iterator of actions: the
`left_len` captured at the call is added to every action's range. -/
def sendRight (leftLen : Nat) (items : List (RopeAction Cell Attr)) :
    List (RopeAction Cell Attr) :=
  items.map (sendRightOne leftLen)

/-! ## Concrete scenarios used by the claims -/

/-- A fresh `PullRope` over a fresh (empty) `AttributedRope`. -/
def pullScenarioS0 : PullState Nat Nat := ⟨newRope, []⟩

/-- The tracker state after `replace(0..0, [1,2,3])` and then
`replace(1..2, [1,2,3])` on `pullScenarioS0` (spec scenario "PullRope
overlapping", also the repo test `pull_overlapping_changes`). -/
def pullScenarioS2 : Option (PullState Nat Nat) :=
  (pullEdit pullScenarioS0 (.replace ⟨0, 0⟩ [1, 2, 3]) 9).bind fun p =>
    (pullEdit p.1 (.replace ⟨1, 2⟩ [1, 2, 3]) 9).map Prod.fst

/-- Apply a list of pulled actions, in emission order, to a fresh rope (the
pre-edit clone of the underlying rope of `pullScenarioS0`). -/
def replayActions (acts : List (RopeAction Nat Nat)) : Option (ARope Nat Nat) :=
  acts.foldlM (fun r a => editRope r a 9) newRope

/-- The rope after `replace(0..0, replicate 33 7)` and then
`replace(0..0, [99])` on a fresh rope — the second replace runs through a
split (the 33-cell tail exceeds `SPLIT_LENGTH`), so its cell-count change
must be propagated into the root branch. -/
def c2Rope : Option (ARope Nat Nat) :=
  (replaceOp newRope ⟨0, 0⟩ (List.replicate 33 7)).bind fun r =>
    replaceOp r ⟨0, 0⟩ [99]

/-- A two-leaf rope under one branch of stored length `2`, for exercising
`replace_cells` directly. -/
def c3Rope : ARope Nat Nat :=
  ⟨[.branch 1 2 2 none, .leaf (some 0) [10] 0, .leaf (some 0) [20] 0], 0, []⟩

/-- Rope `AttributedRope::from([1,2,3])` followed by
`replace_attributes(1..3, [2,3], a)`: cells stay `[1,2,3]` and positions
`1..3` carry attribute `a` (position `0..1` keeps the default `0`). -/
def c5Build (a : Nat) : Option (ARope Nat Nat) :=
  replaceAttributesOp (fromList [1, 2, 3]) ⟨1, 3⟩ [2, 3] a

/-- The rope `c5Build 1` evaluates to. -/
def c5Rope1 : ARope Nat Nat :=
  ⟨[.branch 1 2 3 none, .leaf (some 0) [1] 0, .branch 3 4 2 (some 0),
    .leaf (some 2) [2, 3] 1, .leaf (some 2) [] 0], 0, []⟩

/-- The rope `c5Build 2` evaluates to. -/
def c5Rope2 : ARope Nat Nat :=
  ⟨[.branch 1 2 3 none, .leaf (some 0) [1] 0, .branch 3 4 2 (some 0),
    .leaf (some 2) [2, 3] 2, .leaf (some 2) [] 0], 0, []⟩

/-- Rope `c5Build 1` followed by `replace(1..1, [9])`: an insertion exactly at
the boundary between the attribute run `0..1` (attribute `0`) and the run
`1..3` (attribute `1`). -/
def c8Rope : Option (ARope Nat Nat) :=
  (c5Build 1).bind fun r1 => replaceOp r1 ⟨1, 1⟩ [9]

/-- An abstract binary tree of leaves, used to state well-formedness of an
arena: `Represents nodes i t` says the arena subtree rooted at slot `i`
has shape `t` with consistent stored branch lengths. -/
inductive RTree (Cell Attr : Type) where
  | leaf (cells : List Cell) (attr : Attr)
  | node (l r : RTree Cell Attr)

/-- The total cell count of an abstract tree. -/
def RTree.totalLen {Cell Attr : Type} : RTree Cell Attr → Nat
  | .leaf cells _ => cells.length
  | .node l r => l.totalLen + r.totalLen

/-- The height of an abstract tree (a fuel bound for `find_leaf`). -/
def RTree.height {Cell Attr : Type} : RTree Cell Attr → Nat
  | .leaf _ _ => 0
  | .node l r => max l.height r.height + 1

/-- Well-formedness: slot `i` of the arena heads a subtree of shape `t`,
and every branch on the way stores exactly the sum of its children's
lengths. -/
inductive Represents {Cell Attr : Type} (nodes : List (RopeNode Cell Attr)) :
    Nat → RTree Cell Attr → Prop where
  | leaf {i par cells attr} :
      nodes.get? i = some (.leaf par cells attr) →
      Represents nodes i (.leaf cells attr)
  | node {i li ri par} {tl tr : RTree Cell Attr} :
      nodes.get? i = some (.branch li ri (tl.totalLen + tr.totalLen) par) →
      Represents nodes li tl → Represents nodes ri tr →
      Represents nodes i (.node tl tr)

/-- A small well-formed two-leaf arena for instantiating the boundary
lemma. -/
def c8WitnessRope : ARope Nat Nat :=
  ⟨[.branch 1 2 2 none, .leaf (some 0) [5] 0, .leaf (some 0) [6] 0], 0, []⟩

/-- A tracker state with two pending changes, sorted by
`new_range.start`. -/
def c6State : PullState Nat Nat :=
  ⟨newRope, [⟨⟨0, 1⟩, ⟨0, 1⟩, false⟩, ⟨⟨2, 3⟩, ⟨2, 3⟩, false⟩]⟩

/-- A shrinking replace action for instantiating the concatenator
theorem. -/
def c9Action : RopeAction Nat Nat := .replace ⟨1, 3⟩ [9]

/-- A tracker state with one pending change, for the pull-then-edit
witness. -/
def c10State : PullState Nat Nat := ⟨newRope, [⟨⟨0, 0⟩, ⟨0, 2⟩, false⟩]⟩

/-! ## The claims -/

/-- Claim C1.  The pull/replay round trip fails on the code.  In the
"PullRope overlapping" scenario the underlying rope ends as
`[1,1,2,3,3]`, but replaying the actions that `pull_changes` emits, in
emission order, onto a pre-edit clone of the rope produces `[1,1,2,3]`:
`mark_change` mis-detects the second edit as extending past the recorded
change (it compares the end of the *new* cells against the change's end
instead of the end of the replaced range), splits it, and derives an
original range whose end wraps below zero.  The replayed rope differs from
the edited rope already in its cells. -/
theorem pull_replay_round_trip_fails :
    (pullScenarioS2.map fun s => readCellsOp s.rope ⟨0, lenOp s.rope⟩)
        = some (some [1, 1, 2, 3, 3]) ∧
    ((pullScenarioS2.bind fun s => (pullChanges s).1).bind replayActions).map
        (fun r => readCellsOp r ⟨0, lenOp r⟩) = some (some [1, 1, 2, 3]) ∧
    ([1, 1, 2, 3] : List Nat) ≠ [1, 1, 2, 3, 3] := by
  decide

/-- Claim C2.  The tree-shape invariant is violated by public operations
alone: starting from a fresh rope, `replace(0..0, replicate 33 7)` and then
`replace(0..0, [99])` leave `len()` at `33` while the reachable leaves hold
`34` cells, and the root branch stores length `33` over children of lengths
`1` and `33` — because `replace_cells` adjusts ancestor branch lengths by
`range.len() - cells.len()` instead of by the actual cell-count change. -/
theorem tree_invariant_violated :
    (c2Rope.map fun r => (lenOp r, totalLeafCells r)) = some (33, some 34) ∧
    (c2Rope.bind fun r => getNode r 0) = some (.branch 1 2 33 none) ∧
    (c2Rope.bind fun r => (getNode r 1).map RopeNode.nlen) = some 1 ∧
    (c2Rope.bind fun r => (getNode r 2).map RopeNode.nlen) = some 33 ∧
    (33 : Nat) ≠ 1 + 33 := by
  decide

/-- Claim C3.  Calling `replace_cells(1, 0..1, [30,40])` on a branch of stored length
`2` splices the leaf correctly but leaves the ancestor branch's length at
`2`; the claim requires it to change by `new_cells.len() - range.len() = 1`
(to `3`).  The code instead adds `range.len() - cells.len() = 0`. -/
theorem replace_cells_ancestor_update_wrong :
    (replaceCells c3Rope 1 ⟨0, 1⟩ [30, 40]).map (fun r => r.nodes)
        = some [.branch 1 2 2 none, .leaf (some 0) [30, 40] 0,
                .leaf (some 0) [20] 0] ∧
    (2 : Nat) ≠ 2 + (([30, 40] : List Nat).length - (RRange.mk 0 1).len) := by
  decide

/-- Claim C4.  The "PullRope overlapping" scenario does not yield
`[Replace(0..0, [1,1,2,3,3])]`: the code emits two actions, the first of
which carries an original range whose end has wrapped to `2^64 - 1`
(the repo's own test `pull_overlapping_changes` pins the single-action
result). -/
theorem pull_overlapping_changes_wrong :
    (pullScenarioS2.map fun s => (pullChanges s).1)
        = some (some [.replace ⟨0, 2 ^ 64 - 1⟩ [3], .replace ⟨0, 0⟩ [1, 1, 2]]) ∧
    (some [RopeAction.replace ⟨0, 2 ^ 64 - 1⟩ [3], .replace ⟨0, 0⟩ [1, 1, 2]]
        : Option (List (RopeAction Nat Nat)))
      ≠ some [.replace ⟨0, 0⟩ [1, 1, 2, 3, 3]] := by
  decide

/-- On `c5Rope1` the attribute walk of `eq` makes no progress: both cursors
sit on the extent `(0, 0..1)`, and re-reading at its end returns the same
extent (the boundary tie in `find_leaf` goes left), so the loop runs
forever — `none` at every fuel. -/
theorem c5_eq_loop_diverges (fuel : Nat) :
    eqAttrLoop c5Rope1 3 fuel (0, ⟨0, 1⟩) (0, ⟨0, 1⟩) = none := by
  induction fuel with
  | zero => rfl
  | succ n ih =>
    have step : eqAttrLoop c5Rope1 3 (n + 1) (0, ⟨0, 1⟩) (0, ⟨0, 1⟩)
        = eqAttrLoop c5Rope1 3 n (0, ⟨0, 1⟩) (0, ⟨0, 1⟩) := rfl
    rw [step, ih]

/-- Claim C5.  Rope equality does not compare the two ropes' attributes.
`c5Build 1` and `c5Build 2` have equal lengths and cells but carry the
distinct attributes `1` and `2` on positions `1..3`, so the claim requires
them to compare unequal.  The code's attribute walk reads *both* cursors
from `self` and, on these ropes, never terminates at all (at every fuel the
comparison is still running), so `eq` neither returns `false` nor anything
else. -/
theorem rope_eq_attr_comparison_broken :
    c5Build 1 = some c5Rope1 ∧ c5Build 2 = some c5Rope2 ∧
    readCellsOp c5Rope1 ⟨0, 3⟩ = readCellsOp c5Rope2 ⟨0, 3⟩ ∧
    readAttributesOp c5Rope1 2 = some (1, ⟨1, 3⟩) ∧
    readAttributesOp c5Rope2 2 = some (2, ⟨1, 3⟩) ∧
    (∀ fuel, ropeEq c5Rope1 c5Rope2 fuel = none) := by
  refine ⟨by decide, by decide, by decide, by decide, by decide, ?_⟩
  intro fuel
  have hred : ropeEq c5Rope1 c5Rope2 fuel
      = eqAttrLoop c5Rope1 3 fuel (0, ⟨0, 1⟩) (0, ⟨0, 1⟩) := rfl
  rw [hred, c5_eq_loop_diverges]

/-- The `set_attributes` walk never terminates once it reaches a leaf whose
span ends exactly at the (clamped) range end: the "range ends at or before
the leaf end" arm splits the leaf at its own length, producing a left half
identical to the leaf it started from, and loops.  Stated for every arena
in which slot `i` holds a one-cell leaf with the default attribute, with
the range already advanced to `2..3`. -/
theorem set_attributes_loop_diverges :
    ∀ (fuel : Nat) (ns : List (RopeNode Nat Nat)) (root i : Nat)
      (par : Option Nat) (c : Nat),
      ns.get? i = some (.leaf par [c] 0) →
      setAttributesGo 1 3 fuel ⟨ns, root, []⟩ 2 2 i = none := by
  intro fuel
  induction fuel with
  | zero => intro ns root i par c _; rfl
  | succ n ih =>
    intro ns root i par c hget
    have hlt : i < ns.length := by
      rcases List.get?_eq_some.mp hget with ⟨h, _⟩
      exact h
    have hget2 : ns[i]? = some (RopeNode.leaf par [c] 0) := by
      rw [← List.get?_eq_getElem?]; exact hget
    have harena :
        (((ns.set i RopeNode.empty) ++
            [RopeNode.leaf (some i) [c] 0, RopeNode.leaf (some i) ([] : List Nat) 0]).set i
          (RopeNode.branch ns.length (ns.length + 1) 1 par)).get? ns.length
          = some (RopeNode.leaf (some i) [c] 0) := by
      rw [List.get?_eq_getElem?]
      rw [List.getElem?_set_ne (Nat.ne_of_lt hlt)]
      rw [List.getElem?_append_right (by simp)]
      simp
    simp only [setAttributesGo, getNode, hget]
    norm_num [RopeNode.nlen, FloRope.split, getNode, hget2, storeNewNode, setNode]
    exact ih _ root ns.length (some i) c harena

/-- Claim C7.  Out-of-range positions are not uniformly clamped-and-safe.
`set_attributes(2..7, 1)` on the three-cell rope `[1,2,3]` clamps the range
to `2..3` but then never completes: at every fuel the walk is still
running (it splits the final leaf at its own end over and over).  And
`replace(5..5, [])` on the same rope is a hard failure (the split guard
subtracts the in-leaf position, `5`, from the leaf length `3` on `usize`,
and the release build then fails inside `split`). -/
theorem out_of_range_ops_fail_hard :
    (∀ fuel, setAttributesOp (fromList [1, 2, 3]) ⟨2, 7⟩ 1 fuel = none) ∧
    replaceOp (fromList [1, 2, 3]) ⟨5, 5⟩ ([] : List Nat) = none := by
  refine ⟨?_, by decide⟩
  intro fuel
  match fuel with
  | 0 => rfl
  | n + 1 =>
    have step : setAttributesOp (fromList [1, 2, 3]) ⟨2, 7⟩ 1 (n + 1)
        = setAttributesGo 1 3 n
            ⟨[.branch 1 2 3 none, .leaf (some 0) [1, 2] 0,
              .leaf (some 0) [3] 0], 0, []⟩ 2 2 2 := rfl
    rw [step]
    exact set_attributes_loop_diverges n _ 0 2 (some 0) 3 rfl

/-- In a well-formed arena, `RopeNode::len` of the subtree head agrees with
the abstract total length. -/
theorem represents_nlen {Cell Attr : Type} {ns : List (RopeNode Cell Attr)}
    {i : Nat} {t : RTree Cell Attr} (h : Represents ns i t) :
    ∃ nd, ns.get? i = some nd ∧ nd.nlen = t.totalLen := by
  cases h with
  | leaf hg => exact ⟨_, hg, rfl⟩
  | node hg _ _ => exact ⟨_, hg, rfl⟩

/-- The descent of `find_leaf` on a well-formed subtree: for any position
strictly right of the subtree's offset and at most its end, the leaf found
satisfies `off < pos ≤ off + cells.length` — the boundary tie is resolved
towards the leaf that ends at the position. -/
theorem findLeaf_boundary_left {Cell Attr : Type} :
    ∀ (t : RTree Cell Attr) (r : ARope Cell Attr) (i fuel offset pos : Nat),
      Represents r.nodes i t → t.height < fuel → offset < pos →
      pos ≤ offset + t.totalLen →
      ∃ off j par cells attr,
        findLeafGo r fuel i offset pos = some (off, j) ∧
        r.nodes.get? j = some (.leaf par cells attr) ∧
        off < pos ∧ pos ≤ off + cells.length := by
  intro t
  induction t with
  | leaf cells attr =>
    intro r i fuel offset pos hrep hfuel hlo hhi
    cases hrep with
    | leaf hg =>
      match fuel, hfuel with
      | f + 1, _ =>
        refine ⟨offset, i, _, cells, attr, ?_, hg, hlo, hhi⟩
        simp [findLeafGo, getNode, ← List.get?_eq_getElem?, hg]
  | node tl tr ihl ihr =>
    intro r i fuel offset pos hrep hfuel hlo hhi
    cases hrep with
    | @node _ li ri par _ _ hg hl hr' =>
      match fuel, hfuel with
      | f + 1, hfuel =>
        obtain ⟨lnode, hgl, hlen⟩ := represents_nlen hl
        have hfl : tl.height < f := by
          have := le_max_left tl.height tr.height
          simp only [RTree.height] at hfuel
          omega
        have hfr : tr.height < f := by
          have := le_max_right tl.height tr.height
          simp only [RTree.height] at hfuel
          omega
        by_cases hcase : pos - offset ≤ lnode.nlen
        · have hstep : findLeafGo r (f + 1) i offset pos
              = findLeafGo r f li offset pos := by
            simp [findLeafGo, getNode, ← List.get?_eq_getElem?, hg, hgl, hcase]
          rw [hstep]
          exact ihl r li f offset pos hl hfl hlo (by rw [hlen] at hcase; omega)
        · have hstep : findLeafGo r (f + 1) i offset pos
              = findLeafGo r f ri (offset + lnode.nlen) pos := by
            simp [findLeafGo, getNode, ← List.get?_eq_getElem?, hg, hgl, hcase]
          rw [hstep]
          refine ihr r ri f (offset + lnode.nlen) pos hr' hfr ?_ ?_
          · rw [hlen]; omega
          · rw [hlen]
            simp only [RTree.totalLen] at hhi
            omega


/-- Claim C8.  The boundary tie-break of `find_leaf` goes left.  General
part: in every arena that represents a well-formed tree (branch lengths
consistent), for every position `pos` with `offset < pos ≤ offset +
totalLen`, the descent lands on a leaf whose span satisfies
`off < pos ≤ off + cells.length` — so at a boundary position the leaf that
*ends* there is returned, never the one that starts there.  Concrete part:
on `c5Build 1` (runs `0..1 ↦ 0` and `1..3 ↦ 1`), `replace(1..1, [9])`
inserts at the end of the first run and the inserted cell reads back with
the left run's attribute `0` (extent `0..2`), not the right run's `1`. -/
theorem find_leaf_boundary_ties_left :
    (∀ (t : RTree Nat Nat) (r : ARope Nat Nat) (i fuel offset pos : Nat),
      Represents r.nodes i t → t.height < fuel → offset < pos →
      pos ≤ offset + t.totalLen →
      ∃ off j par cells attr,
        findLeafGo r fuel i offset pos = some (off, j) ∧
        r.nodes.get? j = some (.leaf par cells attr) ∧
        off < pos ∧ pos ≤ off + cells.length) ∧
    c8Rope.map (fun r => readCellsOp r ⟨0, 4⟩) = some (some [1, 9, 2, 3]) ∧
    (c8Rope.bind fun r => readAttributesOp r 1) = some (0, ⟨0, 2⟩) ∧
    ((c5Build 1).bind fun r => readAttributesOp r 2) = some (1, ⟨1, 3⟩) := by
  exact ⟨fun t => findLeaf_boundary_left t, by decide, by decide, by decide⟩

theorem find_leaf_boundary_ties_left_witness :
    findLeafGo c8WitnessRope 2 0 0 1 = some (0, 1) := by
  have h := find_leaf_boundary_ties_left.1
    (RTree.node (RTree.leaf [5] 0) (RTree.leaf [6] 0)) c8WitnessRope 0 2 0 1
    (Represents.node rfl (Represents.leaf rfl) (Represents.leaf rfl))
    (by decide) (by decide) (by decide)
  decide

/-- Claim C6.  Every call to `pull_changes` takes the entire pending list:
the state it leaves behind has no changes, an immediately following pull
yields no items, the emitted actions are exactly the per-change actions of
the reversed (and both-ranges-empty-filtered) pending list, and when the
pending list is sorted by `new_range.start` (its invariant) the changes are
materialised in strictly decreasing order of `new_range.start`. -/
theorem pull_changes_takes_all_reverse_order (s : PullState Nat Nat) :
    (pullChanges s).2.changes = [] ∧
    (pullChanges (pullChanges s).2).1 = some [] ∧
    (pullChanges s).1
      = ((s.changes.reverse.filter keepChange).mapM (changeActions s.rope)).map
          List.flatten ∧
    (List.Pairwise (fun a b => a.newRange.start < b.newRange.start) s.changes →
      List.Pairwise (fun a b => b.newRange.start < a.newRange.start)
        (s.changes.reverse.filter keepChange)) := by
  refine ⟨rfl, rfl, rfl, ?_⟩
  intro hsorted
  exact (List.pairwise_reverse.mpr hsorted).filter keepChange

theorem pull_changes_takes_all_reverse_order_witness :
    (pullChanges c6State).2.changes = [] ∧
    List.Pairwise (fun a b => b.newRange.start < a.newRange.start)
      (c6State.changes.reverse.filter keepChange) := by
  obtain ⟨h1, _h2, _h3, h4⟩ := pull_changes_takes_all_reverse_order c6State
  exact ⟨h1, h4 (by decide)⟩

/-- Claim C9.  `send_right` emits each action unchanged except that the
current `left_len` is added to both endpoints of its range, and `send_left`
emits each action unchanged while moving `left_len` by the action's new
length minus its range length (`cells.len()` for `Replace` and
`ReplaceAttributes`, `range.len()` for `SetAttributes`).  The hypothesis is
the `debug_assert!`ed bound that a shrinking action does not reduce
`left_len` below zero. -/
theorem concatenator_send_left_send_right (leftLen : Nat)
    (a : RopeAction Nat Nat)
    (h : (actionRange a).len - actionNewLen a ≤ leftLen) :
    sendRightOne leftLen a
        = withRange a ⟨(actionRange a).start + leftLen,
                       (actionRange a).stop + leftLen⟩ ∧
    (sendLeftOne leftLen a).map (fun p => ((p.1 : Int), p.2))
        = some ((leftLen : Int) + actionNewLen a - (actionRange a).len, a) := by
  constructor
  · cases a <;> rfl
  · cases a with
    | replace range cells =>
      simp only [sendLeftOne, actionRange, actionNewLen] at *
      split_ifs with h1 h2 <;> simp <;> omega
    | setAttributes range attr =>
      simp only [sendLeftOne, actionRange, actionNewLen] at *
      simp
    | replaceAttributes range cells attr =>
      simp only [sendLeftOne, actionRange, actionNewLen] at *
      split_ifs with h1 h2 <;> simp <;> omega

theorem concatenator_send_left_send_right_witness :
    sendRightOne 5 c9Action = RopeAction.replace ⟨6, 8⟩ [9] ∧
    (sendLeftOne 5 c9Action).map (fun p => ((p.1 : Int), p.2))
      = some (4, c9Action) := by
  obtain ⟨h1, h2⟩ := concatenator_send_left_send_right 5 c9Action (by decide)
  exact ⟨h1, h2⟩

/-- Lemma: `mark_change` on an empty pending list always appends exactly
one entry. -/
theorem mark_change_on_empty (range : RRange) (n : Nat) (b : Bool) :
    ∃ c, markChange [] range n b = some [c] := ⟨_, rfl⟩

/-- Claim C10.  `pull_changes` removes every pending change at the moment
of the call (the list is swapped out before the action iterator is built,
so the post-call state is empty whether or not the actions are consumed),
and any next edit that completes fires the notification callback again:
starting from the post-pull state, a completing `edit` reports
`notified = true`. -/
theorem pull_then_edit_notifies (s : PullState Nat Nat)
    (a : RopeAction Nat Nat) (fuel : Nat) :
    (pullChanges s).2.changes = [] ∧
    (∀ s' notified, pullEdit (pullChanges s).2 a fuel = some (s', notified) →
      notified = true) := by
  refine ⟨rfl, ?_⟩
  intro s' notified h
  cases a with
  | replace range cells =>
    obtain ⟨c, hc⟩ := mark_change_on_empty range cells.length false
    simp only [pullEdit, pullChanges, hc] at h
    cases he : editRope s.rope (.replace range cells) fuel with
    | none => rw [he] at h; cases h
    | some r1 => rw [he] at h; simp at h; exact h.2
  | setAttributes range attr =>
    obtain ⟨c, hc⟩ := mark_change_on_empty range range.len true
    simp only [pullEdit, pullChanges, hc] at h
    cases he : editRope s.rope (.setAttributes range attr) fuel with
    | none => rw [he] at h; cases h
    | some r1 => rw [he] at h; simp at h; exact h.2
  | replaceAttributes range cells attr =>
    obtain ⟨c, hc⟩ := mark_change_on_empty range cells.length true
    simp only [pullEdit, pullChanges, hc] at h
    cases he : editRope s.rope (.replaceAttributes range cells attr) fuel with
    | none => rw [he] at h; cases h
    | some r1 => rw [he] at h; simp at h; exact h.2

theorem pull_then_edit_notifies_witness :
    (pullChanges c10State).2.changes = [] ∧
    (pullEdit (pullChanges c10State).2 (.replace ⟨0, 0⟩ [7]) 5).map Prod.snd
      = some true := by
  obtain ⟨h1, h2⟩ := pull_then_edit_notifies c10State (.replace ⟨0, 0⟩ [7]) 5
  refine ⟨h1, ?_⟩
  rcases he : pullEdit (pullChanges c10State).2 (.replace ⟨0, 0⟩ [7]) 5 with _ | ⟨s', n⟩
  · exact absurd he (by decide)
  · rw [Option.map_some']
    rw [h2 s' n he]


end FloRope
